import Mathlib

/-!
Shallow embedding of `src/tailless/log_view.py` (the log-viewer's filtering,
search-suggestion and rendering layer) and proofs about it.

Conventions of the embedding:
* Python strings are Lean `String`s; the functions mostly work on `List Char`
  (`String.data`).
* Python's `re.split(SPLIT_REGEX, s)` with the single-character class
  `[\s/\[\]]` is modelled by `splitTokens`; `\s` is modelled by the six ASCII
  whitespace characters recognised by `re`.
* The suggestion index `LogLines._search_index` is an `LRUCache[str, str]`
  with `maxsize = 10000`; LRU eviction is not modelled (the properties under
  study bracket it), so the index is a plain map from key to stored word.
* Python's `re` engine is modelled for a fragment of its syntax: literal
  characters, escapes, positive character classes with ranges, the postfix
  operators `*`, `+`, `?`, and top-level alternation `|`.  Class bodies are
  parsed exactly as the item loop of CPython's `sre_parse` does (`]` closes
  except at the first position, range endpoints must be single characters —
  escaped endpoints allowed — with `lo ≤ hi`, `-` before `]` is a literal);
  see `classParser_fidelity` for probes at the delicate inputs.  Patterns
  outside the fragment (groups, anchors, `.`, negated classes, …) are
  treated as failing to compile, which makes every universally-quantified
  statement over compiled patterns conservative.  `re.match` (anchored at
  the start of the line) is `reMatchAt`: the pattern matches some prefix of
  the line.  `re.IGNORECASE` is modelled by case-folding both the pattern's
  literal characters and the line (faithful for ASCII).
* Code that can raise (`re.match` on a pattern that does not compile) returns
  `Except Unit`.
-/

namespace Tailless

/-- Characters matched by the character class of `SPLIT_REGEX = r"[\s/\[\]]"`
(log_view.py line 29). -/
def isSplitChar (c : Char) : Bool :=
  c = ' ' || c = '\t' || c = '\n' || c = '\r' || c = '\x0b' || c = '\x0c' ||
  c = '/' || c = '[' || c = ']'

/-- Model of `re.split(SPLIT_REGEX, s)`: the pattern matches exactly one
character, so the split cuts at every delimiter character and keeps empty
pieces (including leading/trailing ones), exactly as `re.split` does. -/
def splitTokens : List Char → List (List Char)
  | [] => [[]]
  | c :: cs =>
    match splitTokens cs with
    | [] => [[]]
    | t :: ts => if isSplitChar c then [] :: t :: ts else (c :: t) :: ts

/-- Python `str.lower()` (ASCII model). -/
def lowerChars (l : List Char) : List Char := l.map Char.toLower

/-- Python's substring test `needle in hay` for strings. -/
def pyContains (needle : List Char) : List Char → Bool
  | [] => needle.isEmpty
  | c :: t => needle.isPrefixOf (c :: t) || pyContains needle t

/-! ### The suggestion index (`LogLines._search_index`) -/

/-- The suggestion index: a map from key to stored word. -/
abbrev SearchIndex := List Char → Option (List Char)

def emptyIndex : SearchIndex := fun _ => none

/-- Store `k ↦ v` (Python `search_index[k] = v`). -/
def setKey (idx : SearchIndex) (k v : List Char) : SearchIndex :=
  fun k' => if k' = k then some v else idx k'

/-- One iteration of the inner loop of `LogLines.render_line`
(log_view.py lines 147-153):

```python
sub_word = word[:offset]
if sub_word in search_index:
    if len(search_index[sub_word]) < len(word):
        search_index[sub_word.lower()] = word
else:
    search_index[sub_word.lower()] = word
```

Note the membership and length tests use the raw `sub_word` while the store
uses `sub_word.lower()`. -/
def storeSubWord (word : List Char) (idx : SearchIndex) (offset : Nat) : SearchIndex :=
  let sub_word := word.take offset
  match idx sub_word with
  | some v => if v.length < word.length then setKey idx (lowerChars sub_word) word else idx
  | none => setKey idx (lowerChars sub_word) word

/-- The per-token body of the word-observation loop of `LogLines.render_line`
(lines 144-153): tokens of length ≤ 1 are skipped, and the offsets run over
Python's `range(1, len(word) - 1)`, i.e. `1, …, len(word) - 2`. -/
def observeWord (idx : SearchIndex) (word : List Char) : SearchIndex :=
  if word.length ≤ 1 then idx
  else (List.range' 1 (word.length - 2)).foldl (storeSubWord word) idx

/-- The word-observation loop of `LogLines.render_line` (lines 144-153)
applied to a line's plain text: split on `SPLIT_REGEX`, then store the
prefixes of every token. -/
def observe (idx : SearchIndex) (text : String) : SearchIndex :=
  (splitTokens text.data).foldl observeWord idx

/-- Model of `SearchSuggester.get_suggestion` (log_view.py lines 37-46):

```python
word = re.split(SPLIT_REGEX, value)[-1]
start = value[: -len(word)]
if not word:
    return None
search_hit = self.search_index.get(word.lower(), None)
if search_hit is None:
    return None
return start + search_hit
```

`value[: -len(word)]` for a non-empty trailing token `word` drops the last
`len(word)` characters of `value`. -/
def get_suggestion (idx : SearchIndex) (value : String) : Option String :=
  let word := (splitTokens value.data).getLastD []
  let start := value.data.take (value.data.length - word.length)
  if word = [] then none
  else
    match idx (lowerChars word) with
    | none => none
    | some hit => some (String.mk (start ++ hit))

/-! ### A model of the fragment of Python's `re` used by `check_match`

The pattern is compiled to a `RegularExpression Char` (Mathlib); compilation
returns `none` exactly when `re.compile` would raise `re.error` on a pattern
of the modelled fragment (e.g. an unterminated class such as `"["`, a bad
escape, a reversed range, or `*` with nothing to repeat). -/

/-- An item of a character class `[...]`. -/
inductive ClsItem where
  | single (c : Char)
  | range (lo hi : Char)
deriving DecidableEq

/-- Tokens of the modelled pattern syntax. -/
inductive RTok where
  | lit (c : Char)
  | cls (items : List ClsItem)
  | star0
  | plus1
  | opt
  | bar
deriving DecidableEq

/-- Meaning of an escape `\c`: class items, or `none` for a bad escape
(Python raises `re.error` for unknown letter escapes). -/
def escClsItems (c : Char) : Option (List ClsItem) :=
  if c = '\\' || c = '[' || c = ']' || c = '(' || c = ')' || c = '\x7b' || c = '\x7d' ||
      c = '*' || c = '+' || c = '?' || c = '.' || c = '|' || c = '^' || c = '$' || c = '-' then
    some [.single c]
  else if c = 'n' then some [.single '\n']
  else if c = 't' then some [.single '\t']
  else if c = 'r' then some [.single '\r']
  else if c = 'd' then some [.range '0' '9']
  else if c = 's' then
    some [.single ' ', .single '\t', .single '\n', .single '\r', .single '\x0b', .single '\x0c']
  else if c = 'w' then some [.range 'a' 'z', .range 'A' 'Z', .range '0' '9', .single '_']
  else none

/-- Characters that the fragment does not support outside a class (so the
model conservatively treats patterns containing them as non-compiling);
an unmatched `]` is a literal, as in Python. -/
def unsupportedChar (c : Char) : Bool :=
  c = '(' || c = ')' || c = '.' || c = '^' || c = '$' || c = '\x7b' || c = '\x7d'

/-- The end atom of a class range `lo-…`: a literal character or a
single-character escape.  A multi-character escape (`\d`, `\s`, `\w`) or a
bad escape as a range end is a "bad character range" / "bad escape" error in
`re.compile`, hence `none`.  The caller guarantees the input does not start
with the closing `]`. -/
def rangeEnd : List Char → Option (Char × List Char)
  | '\\' :: c :: rest =>
    match escClsItems c with
    | some [.single c'] => some (c', rest)
    | _ => none
  | ['\\'] => none
  | [] => none
  | c :: rest => some (c, rest)

/-- Scanner for the body of a character class (after `[`), mirroring the
item loop of CPython's `sre_parse`:

* `]` closes the class except at the first position, where it is an
  ordinary atom;
* an atom is a literal or an escape (a bad escape is an error);
* `atom - atom` is a range whose two endpoints must be single characters
  ("bad character range" otherwise, e.g. `[\d-x]`) with `lo ≤ hi`;
  escaped endpoints are allowed (`[\]-a]`, `[0-\]]`);
* `-` directly before `]` is a literal and the class ends;
* a leading `^` (negated class) is outside the modelled fragment.

`acc` holds the items seen so far, reversed; the result is the item list in
order together with the input after the closing `]`.  The first argument is
fuel: every iteration consumes at least one character, so `length + 1` fuel
is enough, and running out of fuel only rejects (conservative). -/
def scanClsF : Nat → List Char → List ClsItem → Option (List ClsItem × List Char)
  | 0, _, _ => none
  | _ + 1, [], _ => none
  | fuel + 1, ']' :: rest, acc =>
    if acc.isEmpty then
      -- a `]` at the first position is an ordinary atom and may start a range
      match rest with
      | '-' :: ']' :: rest₂ => some ([.single ']', .single '-'], rest₂)
      | '-' :: d :: rest₂ =>
        match rangeEnd (d :: rest₂) with
        | none => none
        | some (hi, rest₃) =>
          if hi.toNat < ']'.toNat then none
          else scanClsF fuel rest₃ [.range ']' hi]
      | _ => scanClsF fuel rest [.single ']']
    else some (acc.reverse, rest)
  | fuel + 1, '\\' :: c :: rest, acc =>
    match escClsItems c with
    | none => none
    | some items =>
      match rest with
      | '-' :: ']' :: rest₂ => some ((ClsItem.single '-' :: items.reverse ++ acc).reverse, rest₂)
      | '-' :: d :: rest₂ =>
        match items with
        | [.single lo] =>
          match rangeEnd (d :: rest₂) with
          | none => none
          | some (hi, rest₃) =>
            if hi.toNat < lo.toNat then none
            else scanClsF fuel rest₃ (.range lo hi :: acc)
        | _ => none  -- bad character range, e.g. [\d-x]
      | _ => scanClsF fuel rest (items.reverse ++ acc)
  | _ + 1, ['\\'], _ => none
  | fuel + 1, c :: rest, acc =>
    if c = '^' && acc.isEmpty then none  -- negated classes: outside the fragment
    else
      match rest with
      | '-' :: ']' :: rest₂ => some ((ClsItem.single '-' :: ClsItem.single c :: acc).reverse, rest₂)
      | '-' :: d :: rest₂ =>
        match rangeEnd (d :: rest₂) with
        | none => none
        | some (hi, rest₃) =>
          if hi.toNat < c.toNat then none
          else scanClsF fuel rest₃ (.range c hi :: acc)
      | _ => scanClsF fuel rest (.single c :: acc)

/-- Fuelled tokenizer for the modelled pattern syntax.  Mirrors
`re.compile`'s acceptance on the fragment: unterminated classes, bad
escapes, bad character ranges and `*`/`+`/`?` handled downstream.  Every
step consumes at least one character, so `length + 1` fuel is enough, and
running out of fuel only rejects (conservative). -/
def tokenizeREF : Nat → List Char → Option (List RTok)
  | 0, _ => none
  | _ + 1, [] => some []
  | fuel + 1, '\\' :: c :: rest =>
    match escClsItems c, tokenizeREF fuel rest with
    | some [.single c'], some toks => some (.lit c' :: toks)
    | some items, some toks => some (.cls items :: toks)
    | _, _ => none
  | _ + 1, ['\\'] => none
  | fuel + 1, '[' :: rest =>
    match scanClsF (rest.length + 1) rest [] with
    | some (items, rest₂) => (tokenizeREF fuel rest₂).map fun toks => .cls items :: toks
    | none => none
  | fuel + 1, '*' :: rest => (tokenizeREF fuel rest).map fun toks => .star0 :: toks
  | fuel + 1, '+' :: rest => (tokenizeREF fuel rest).map fun toks => .plus1 :: toks
  | fuel + 1, '?' :: rest => (tokenizeREF fuel rest).map fun toks => .opt :: toks
  | fuel + 1, '|' :: rest => (tokenizeREF fuel rest).map fun toks => .bar :: toks
  | fuel + 1, c :: rest =>
    if unsupportedChar c then none
    else (tokenizeREF fuel rest).map fun toks => .lit c :: toks

/-- Tokenizer entry point, with enough fuel for the whole pattern. -/
def tokenizeRE (pat : List Char) : Option (List RTok) :=
  tokenizeREF (pat.length + 1) pat

/-- Case folding used to model `re.IGNORECASE` (ASCII model): with
`case_sensitive = false` both the pattern's characters and the line are
lowered. -/
def foldChar (cs : Bool) (c : Char) : Char := if cs then c else c.toLower

/-- The characters denoted by a class item.  A range enumerates the valid
code points between its endpoints (code points that are not valid characters
cannot occur in a line and are dropped). -/
def clsItemChars : ClsItem → List Char
  | .single c => [c]
  | .range lo hi =>
    (List.range (hi.toNat + 1 - lo.toNat)).filterMap fun i =>
      if (lo.toNat + i).isValidChar then some (Char.ofNat (lo.toNat + i)) else none

/-- A character class as a regular expression (case-folded). -/
def clsRE (cs : Bool) (items : List ClsItem) : RegularExpression Char :=
  (((items.map clsItemChars).flatten).map (foldChar cs)).foldr
    (fun c r => RegularExpression.plus (RegularExpression.char c) r) RegularExpression.zero

/-- Sequential composition of a list of atoms. -/
def mkSeq (atoms : List (RegularExpression Char)) : RegularExpression Char :=
  atoms.foldr RegularExpression.comp RegularExpression.epsilon

/-- Alternation of the branches of a pattern. -/
def mkAlt (branches : List (RegularExpression Char)) : RegularExpression Char :=
  match branches with
  | [] => RegularExpression.epsilon
  | b :: bs => bs.foldl RegularExpression.plus b

/-- Parser from tokens to a regular expression.  `alts` holds the completed
alternation branches, `cur` the atoms of the current branch (reversed), each
flagged with whether it was produced by a quantifier (Python rejects a
quantifier applied to a quantified atom: "multiple repeat"). -/
def parseToks (cs : Bool) :
    List RTok → List (RegularExpression Char) → List (RegularExpression Char × Bool) →
    Option (RegularExpression Char)
  | [], alts, cur => some (mkAlt (alts ++ [mkSeq (cur.map Prod.fst).reverse]))
  | .bar :: rest, alts, cur => parseToks cs rest (alts ++ [mkSeq (cur.map Prod.fst).reverse]) []
  | .lit c :: rest, alts, cur =>
    parseToks cs rest alts ((RegularExpression.char (foldChar cs c), false) :: cur)
  | .cls items :: rest, alts, cur => parseToks cs rest alts ((clsRE cs items, false) :: cur)
  | .star0 :: rest, alts, cur =>
    match cur with
    | [] => none  -- nothing to repeat
    | (_, true) :: _ => none  -- multiple repeat
    | (a, false) :: as' => parseToks cs rest alts ((RegularExpression.star a, true) :: as')
  | .plus1 :: rest, alts, cur =>
    match cur with
    | [] => none
    | (_, true) :: _ => none
    | (a, false) :: as' =>
      parseToks cs rest alts ((RegularExpression.comp a (RegularExpression.star a), true) :: as')
  | .opt :: rest, alts, cur =>
    match cur with
    | [] => none
    | (_, true) :: _ => none
    | (a, false) :: as' =>
      parseToks cs rest alts ((RegularExpression.plus a RegularExpression.epsilon, true) :: as')

/-- Compilation of a pattern, i.e. the model of `re.compile` (with the
`IGNORECASE` flag when `cs = false`): `none` when `re.compile` raises. -/
def compilePattern (cs : Bool) (pat : List Char) : Option (RegularExpression Char) :=
  match tokenizeRE pat with
  | none => none
  | some toks => parseToks cs toks [] []

/-- `re.match(p, line) is not None`: the pattern matches at the start of the
line, i.e. it matches some prefix of the line. -/
def reMatchAt (r : RegularExpression Char) (l : List Char) : Bool :=
  (List.range (l.length + 1)).any fun k => r.rmatch (l.take k)

/-! ### `LogLines.check_match` and `LogLines.advance_search` -/

/-- The filter-relevant reactive attributes of `LogLines`:
`find`, `regex`, `case_sensitive` (log_view.py lines 73-75). -/
structure FilterState where
  find : String
  regex : Bool
  case_sensitive : Bool

/-- Case folding of a line for the `IGNORECASE` model. -/
def foldCase (cs : Bool) (l : List Char) : List Char := if cs then l else lowerChars l

/-- Model of `LogLines.check_match` (log_view.py lines 204-218):

```python
def check_match(self, line: str) -> bool:
    if not line:
        return True
    if self.regex:
        return (
            re.match(
                self.find, line, flags=0 if self.case_sensitive else re.IGNORECASE
            )
            is not None
        )
    else:
        if self.case_sensitive:
            return self.find in line
        else:
            return self.find.lower() in line.lower()
```

There is no `try`/`except` here: with `regex` set and a pattern that does not
compile, `re.match` raises `re.error` on every non-empty line; the model
returns `Except.error ()` there. -/
def check_match (st : FilterState) (line : String) : Except Unit Bool :=
  if line = "" then .ok true
  else if st.regex then
    match compilePattern st.case_sensitive st.find.data with
    | none => .error ()
    | some r => .ok (reMatchAt r (foldCase st.case_sensitive line.data))
  else if st.case_sensitive then .ok (pyContains st.find.data line.data)
  else .ok (pyContains (lowerChars st.find.data) (lowerChars line.data))

/-- The sequence of line numbers scanned by the loop of
`LogLines.advance_search` (log_view.py lines 227-230) when the cursor
(`pointer_line`) is supplied: Python's `range(cursor + direction, line_count)`
for `direction == 1` and `range(cursor - 1, -1, -1)` otherwise. -/
def scanRange (cursor : Nat) (direction : Int) (line_count : Nat) : List Nat :=
  if direction = 1 then List.range' (cursor + 1) (line_count - (cursor + 1))
  else (List.range cursor).reverse

/-- The search loop of `LogLines.advance_search` (log_view.py lines 235-239):
the first scanned line whose text matches becomes the new pointer; if the
scan is exhausted no pointer is produced.  An exception from `check_match`
aborts the loop. -/
def findFirstMatch (st : FilterState) (get_line : Nat → String) :
    List Nat → Except Unit (Option Nat)
  | [] => .ok none
  | n :: rest =>
    match check_match st (get_line n) with
    | .error e => .error e
    | .ok true => .ok (some n)
    | .ok false => findFirstMatch st get_line rest

/-- Model of `LogLines.advance_search` for a caller-supplied cursor
(`pointer_line = cursor`): scan from `cursor + direction` toward the end of
the index (`direction = 1`) or toward line 0 (`direction = -1`ish, the
code's `else` branch) and yield the first matching line number.  The index
source is abstracted as `get_line` and `line_count`
(`self.mapped_file.get_line` / `self.line_count`). -/
def advance_search (get_line : Nat → String) (line_count : Nat) (st : FilterState)
    (cursor : Nat) (direction : Int) : Except Unit (Option Nat) :=
  findFirstMatch st get_line (scanRange cursor direction line_count)

/-! ### `LogLines.render_line` (the parts under study) -/

/-- Abstraction of the `Strip` produced by `LogLines.render_line`:
`Strip.blank(width)` for rows past the end of the file, a cached strip on a
render-cache hit, and a freshly rendered strip otherwise (its styling is not
modelled; the constructor records what it was built from). -/
inductive RenderedStrip where
  | blank (width : Nat)
  | cached (index : Nat) (is_pointer : Bool)
  | fresh (index : Nat) (is_pointer : Bool) (text : String)
deriving DecidableEq

/-- Model of the control flow of `LogLines.render_line` (log_view.py lines
117-159) around file access and the suggestion index:

* `index = y + scroll_y`; when `index >= line_count` the widget returns
  `Strip.blank(width)` without touching the file (lines 119-123);
* otherwise, on a render-cache hit the cached strip is returned and the
  word-observation loop does not run (lines 128-129);
* on a cache miss, `get_text` is consulted and the word-observation loop
  (`observe`) updates the suggestion index (lines 131-153).

The index source is abstracted as `get_text : Nat → Option String` (the
line's plain text after the optional timestamp assembly); `none` models an
out-of-range access, which `MappedFile` fails on.  The render cache is
abstracted as `cache : Nat × Bool → Option Unit` keyed like
`cache_key = (index, is_pointer)`. -/
def render_line (get_text : Nat → Option String) (line_count : Nat)
    (scroll_y width : Nat) (pointer_line : Option Nat)
    (cache : Nat × Bool → Option Unit) (idx : SearchIndex) (y : Nat) :
    Except Unit (RenderedStrip × SearchIndex) :=
  let index := y + scroll_y
  if line_count ≤ index then .ok (.blank width, idx)
  else
    let is_pointer := decide (pointer_line = some index)
    match cache (index, is_pointer) with
    | some _ => .ok (.cached index is_pointer, idx)
    | none =>
      match get_text index with
      | none => .error ()
      | some text => .ok (.fresh index is_pointer text, observe idx text)

/-! ### Lemmas about `splitTokens` -/

theorem splitTokens_ne_nil : ∀ l : List Char, splitTokens l ≠ []
  | [] => by simp [splitTokens]
  | c :: cs => by
    unfold splitTokens
    split
    · simp
    · split <;> simp

theorem splitTokens_singleton : ∀ {l t : List Char}, splitTokens l = [t] → l = t
  | [], t => by
    intro h
    simp [splitTokens] at h
    simp [h]
  | c :: cs, t => by
    intro h
    simp only [splitTokens] at h
    rcases h2 : splitTokens cs with _ | ⟨t', ts⟩
    · exact absurd h2 (splitTokens_ne_nil cs)
    · rw [h2] at h
      cases hc : isSplitChar c
      · rw [hc] at h
        simp only [Bool.false_eq_true, if_false, List.cons.injEq] at h
        obtain ⟨rfl, rfl⟩ := h
        rw [splitTokens_singleton h2]
      · rw [hc] at h
        simp at h

theorem getLastD_cons_irrel {α : Type} (a : α) (l : List α) (d₁ d₂ : α) :
    (a :: l).getLastD d₁ = (a :: l).getLastD d₂ := by
  cases l with
  | nil => rfl
  | cons b l => rw [List.getLastD_cons d₁ a (b :: l), List.getLastD_cons d₂ a (b :: l)]

theorem splitTokens_getLastD_suffix : ∀ l : List Char, (splitTokens l).getLastD [] <:+ l
  | [] => by simp [splitTokens]
  | c :: cs => by
    have IH := splitTokens_getLastD_suffix cs
    simp only [splitTokens]
    rcases h : splitTokens cs with _ | ⟨t, ts⟩
    · exact absurd h (splitTokens_ne_nil cs)
    · rw [h] at IH
      cases hc : isSplitChar c
      · simp only [Bool.false_eq_true, if_false]
        rcases ts with _ | ⟨t₂, ts₂⟩
        · -- single token: the whole input is the token
          have : cs = t := splitTokens_singleton h
          subst this
          simp [List.getLastD_cons]
        · rw [List.getLastD_cons]
          rw [List.getLastD_cons] at IH
          rw [getLastD_cons_irrel t₂ ts₂ (c :: t) t]
          exact IH.trans (List.suffix_cons c cs)
      · simp only [if_true]
        rw [List.getLastD_cons]
        exact IH.trans (List.suffix_cons c cs)

/-! ### Lemmas about the suggestion index -/

theorem lowerChars_length (l : List Char) : (lowerChars l).length = l.length :=
  List.length_map l Char.toLower

theorem setKey_self (idx : SearchIndex) (k v : List Char) : setKey idx k v k = some v := by
  simp [setKey]

theorem setKey_ne (idx : SearchIndex) {k k' v : List Char} (h : k' ≠ k) :
    setKey idx k v k' = idx k' := by
  simp [setKey, h]

theorem storeSubWord_ne {w : List Char} (idx : SearchIndex) {off : Nat} {k : List Char}
    (hk : k ≠ lowerChars (w.take off)) : storeSubWord w idx off k = idx k := by
  unfold storeSubWord
  rcases idx (w.take off) with _ | v
  · exact setKey_ne idx hk
  · show (if v.length < w.length then setKey idx (lowerChars (w.take off)) w else idx) k = idx k
    split
    · exact setKey_ne idx hk
    · rfl

theorem storeSubWord_self {w : List Char} (idx : SearchIndex) (off : Nat) :
    storeSubWord w idx off (lowerChars (w.take off)) =
      match idx (w.take off) with
      | none => some w
      | some v =>
        if v.length < w.length then some w else idx (lowerChars (w.take off)) := by
  unfold storeSubWord
  rcases idx (w.take off) with _ | v
  · exact setKey_self idx _ w
  · show (if v.length < w.length then setKey idx (lowerChars (w.take off)) w else idx)
        (lowerChars (w.take off)) =
      if v.length < w.length then some w else idx (lowerChars (w.take off))
    split
    · exact setKey_self idx _ w
    · rfl

/-- The keys written by `storeSubWord` at distinct in-range offsets are
distinct (their lengths differ). -/
theorem take_key_ne {w : List Char} {o o' : Nat} (ho : o ≤ w.length) (ho' : o' ≤ w.length)
    (hne : o ≠ o') : lowerChars (w.take o) ≠ lowerChars (w.take o') := by
  intro h
  have := congrArg List.length h
  rw [lowerChars_length, lowerChars_length, List.length_take, List.length_take] at this
  omega

theorem raw_key_ne {w : List Char} {o o' : Nat} (ho : o ≤ w.length) (ho' : o' ≤ w.length)
    (hne : o ≠ o') : w.take o ≠ lowerChars (w.take o') := by
  intro h
  have := congrArg List.length h
  rw [lowerChars_length, List.length_take, List.length_take] at this
  omega

theorem foldl_storeSubWord_ne {w : List Char} {k : List Char} :
    ∀ (L : List Nat) (idx : SearchIndex),
      (∀ o ∈ L, k ≠ lowerChars (w.take o)) →
      (L.foldl (storeSubWord w) idx) k = idx k
  | [], _, _ => rfl
  | o :: L, idx, h => by
    rw [List.foldl_cons,
      foldl_storeSubWord_ne L _ fun o' ho' => h o' (List.mem_cons_of_mem _ ho'),
      storeSubWord_ne idx (h o (List.mem_cons_self _ _))]

/-- A `storeSubWord` at a different (in-range) offset does not change what a
later `storeSubWord` reads or writes at its own key. -/
theorem storeSubWord_comm_read {w : List Char} (idx : SearchIndex) {o off : Nat}
    (ho : o ≤ w.length) (hoff : off ≤ w.length) (hne : o ≠ off) :
    storeSubWord w (storeSubWord w idx o) off (lowerChars (w.take off)) =
      storeSubWord w idx off (lowerChars (w.take off)) := by
  rw [storeSubWord_self, storeSubWord_self,
    storeSubWord_ne idx (raw_key_ne hoff ho (Ne.symm hne)),
    storeSubWord_ne idx (take_key_ne hoff ho (Ne.symm hne))]

theorem foldl_storeSubWord_at {w : List Char} :
    ∀ (L : List Nat) (idx : SearchIndex) (off : Nat),
      off ∈ L → L.Nodup → (∀ o ∈ L, o ≤ w.length) →
      (L.foldl (storeSubWord w) idx) (lowerChars (w.take off)) =
        storeSubWord w idx off (lowerChars (w.take off))
  | [], _, _, hmem, _, _ => absurd hmem (List.not_mem_nil _)
  | o :: L, idx, off, hmem, hnd, hbd => by
    have hoL : o ≤ w.length := hbd o (List.mem_cons_self _ _)
    rcases List.mem_cons.mp hmem with rfl | hmem'
    · -- the head is the offset in question: later writes do not touch its key
      rw [List.foldl_cons]
      exact foldl_storeSubWord_ne L _ fun o' ho' =>
        take_key_ne hoL (hbd o' (List.mem_cons_of_mem _ ho'))
          (fun h => (List.nodup_cons.mp hnd).1 (h ▸ ho'))
    · have hoff : off ≤ w.length := hbd off hmem
      have hne : o ≠ off := fun h => (List.nodup_cons.mp hnd).1 (h ▸ hmem')
      rw [List.foldl_cons,
        foldl_storeSubWord_at L _ off hmem' (List.nodup_cons.mp hnd).2
          (fun o' ho' => hbd o' (List.mem_cons_of_mem _ ho')),
        storeSubWord_comm_read idx hoL hoff hne]

/-- Pointwise behaviour of the per-token observation loop at a generated key:
for an offset `off` with `1 ≤ off ≤ len(word) - 2`, the key
`lower(word[:off])` ends up holding the token unless the *raw* (un-lowered)
key `word[:off]` was present with a value at least as long. -/
theorem observeWord_at {w : List Char} (idx : SearchIndex) {off : Nat}
    (h1 : 1 ≤ off) (h2 : off + 2 ≤ w.length) :
    observeWord idx w (lowerChars (w.take off)) =
      match idx (w.take off) with
      | none => some w
      | some v =>
        if v.length < w.length then some w else idx (lowerChars (w.take off)) := by
  unfold observeWord
  rw [if_neg (by omega)]
  rw [foldl_storeSubWord_at (List.range' 1 (w.length - 2)) idx off
    (List.mem_range'_1.mpr ⟨h1, by omega⟩) (List.nodup_range' 1 (w.length - 2))
    (fun o ho => by have := List.mem_range'_1.mp ho; omega)]
  exact storeSubWord_self idx off

/-- Keys not of the form `lower(word[:off])` for an in-range offset are left
untouched by the per-token observation loop. -/
theorem observeWord_ne {w : List Char} (idx : SearchIndex) {k : List Char}
    (h : ∀ off, 1 ≤ off → off + 2 ≤ w.length → k ≠ lowerChars (w.take off)) :
    observeWord idx w k = idx k := by
  unfold observeWord
  split
  · rfl
  · exact foldl_storeSubWord_ne _ _ fun o ho => by
      have := List.mem_range'_1.mp ho
      exact h o this.1 (by omega)

/-! ### Lemmas about `check_match`, `reMatchAt` and the search scan -/

/-- Fidelity of the class parser against CPython's `sre_parse` at the
delicate inputs: `[\d-x]`, `[a-\d]` and `[a--b]` are bad character ranges
(`re.compile` raises, the model rejects); `[\]-a]` and `[]-a]` are the range
`']'..'a'`, so they match the line `"^"`; `[0-\]]` is the range `'0'..']'`
(matches `"A"`, not `"^"`); `[a-]` and `[\d-]` have a literal trailing `-`;
`[--a]` is the range `'-'..'a'`; `[]]` is the class containing `]`; `[` and
`[]` are unterminated. -/
theorem classParser_fidelity :
    compilePattern true ("[\\d-x]" : String).data = none ∧
    compilePattern true ("[a-\\d]" : String).data = none ∧
    compilePattern true ("[a--b]" : String).data = none ∧
    check_match ⟨"[\\]-a]", true, true⟩ "^" = .ok true ∧
    check_match ⟨"[]-a]", true, true⟩ "^" = .ok true ∧
    check_match ⟨"[0-\\]]", true, true⟩ "A" = .ok true ∧
    check_match ⟨"[0-\\]]", true, true⟩ "^" = .ok false ∧
    check_match ⟨"[a-]", true, true⟩ "-" = .ok true ∧
    check_match ⟨"[\\d-]", true, true⟩ "5" = .ok true ∧
    check_match ⟨"[--a]", true, true⟩ "0" = .ok true ∧
    check_match ⟨"[]]", true, true⟩ "]" = .ok true ∧
    compilePattern true ("[" : String).data = none ∧
    compilePattern true ("[]" : String).data = none :=
  ⟨rfl, rfl, rfl, rfl, rfl, rfl, rfl, rfl, rfl, rfl, rfl, rfl, rfl⟩

/-- The filter's pattern compiles whenever the regex variant is selected
(vacuously true for the plain variant).  `check_match` can only raise when
this fails. -/
def RegexSafe (st : FilterState) : Prop :=
  st.regex = true → (compilePattern st.case_sensitive st.find.data).isSome

theorem check_match_not_error {st : FilterState} (h : RegexSafe st) (line : String) (e : Unit) :
    check_match st line ≠ .error e := by
  unfold check_match
  split
  · simp
  · split
    · rcases hc : compilePattern st.case_sensitive st.find.data with _ | r
      · have hs := h (by assumption)
        rw [hc] at hs
        simp at hs
      · simp
    · split <;> simp

theorem reMatchAt_iff (r : RegularExpression Char) (l : List Char) :
    reMatchAt r l = true ↔ ∃ k, k ≤ l.length ∧ l.take k ∈ r.matches' := by
  unfold reMatchAt
  rw [List.any_eq_true]
  constructor
  · rintro ⟨k, hk, hr⟩
    exact ⟨k, by have := List.mem_range.mp hk; omega,
      (RegularExpression.rmatch_iff_matches' r (l.take k)).mp hr⟩
  · rintro ⟨k, hk, hm⟩
    exact ⟨k, List.mem_range.mpr (by omega),
      (RegularExpression.rmatch_iff_matches' r (l.take k)).mpr hm⟩

theorem compilePattern_nil (cs : Bool) :
    compilePattern cs [] = some RegularExpression.epsilon := rfl

theorem reMatchAt_epsilon (l : List Char) :
    reMatchAt RegularExpression.epsilon l = true := by
  unfold reMatchAt
  rw [List.any_eq_true]
  refine ⟨0, List.mem_range.mpr (Nat.succ_pos _), ?_⟩
  rw [List.take_zero]
  rfl

theorem pyContains_nil (l : List Char) : pyContains [] l = true := by
  cases l <;> simp [pyContains, List.isPrefixOf]

theorem foldCase_length (cs : Bool) (l : List Char) : (foldCase cs l).length = l.length := by
  unfold foldCase
  split
  · rfl
  · exact lowerChars_length l

/-- Correctness of the ascending search scan: over `range' s k` the first
matching line number is returned, `none` when there is no match. -/
theorem findFirstMatch_range' {st : FilterState} {g : Nat → String} (hsafe : RegexSafe st) :
    ∀ (k s n : Nat),
      (findFirstMatch st g (List.range' s k) = .ok (some n) ↔
        s ≤ n ∧ n < s + k ∧ check_match st (g n) = .ok true ∧
          ∀ m, s ≤ m → m < n → check_match st (g m) ≠ .ok true) ∧
      (findFirstMatch st g (List.range' s k) = .ok none ↔
        ∀ m, s ≤ m → m < s + k → check_match st (g m) ≠ .ok true)
  | 0, s, n => by
    constructor
    · simp only [List.range', findFirstMatch]
      constructor
      · intro h
        simp at h
      · rintro ⟨h1, h2, _⟩
        omega
    · simp only [List.range', findFirstMatch]
      constructor
      · intro _ m hm1 hm2
        omega
      · intro _
        trivial
  | k + 1, s, n => by
    have IH := @findFirstMatch_range' st g hsafe k (s + 1) n
    rw [List.range'_succ]
    rcases hm : check_match st (g s) with e | b
    · exact absurd hm (check_match_not_error hsafe (g s) e)
    · cases b
      · -- the head does not match: recurse
        have hne : check_match st (g s) ≠ .ok true := by
          rw [hm]
          simp
        simp only [findFirstMatch, hm]
        constructor
        · rw [IH.1]
          constructor
          · rintro ⟨h1, h2, h3, h4⟩
            refine ⟨by omega, by omega, h3, fun m hm1 hm2 => ?_⟩
            rcases Nat.eq_or_lt_of_le hm1 with rfl | h
            · exact hne
            · exact h4 m h hm2
          · rintro ⟨h1, h2, h3, h4⟩
            have hns : n ≠ s := fun h => hne (h ▸ h3)
            exact ⟨by omega, by omega, h3, fun m hm1 hm2 => h4 m (by omega) hm2⟩
        · rw [IH.2]
          constructor
          · intro h m hm1 hm2
            rcases Nat.eq_or_lt_of_le hm1 with rfl | hlt
            · exact hne
            · exact h m hlt (by omega)
          · intro h m hm1 hm2
            exact h m (by omega) (by omega)
      · -- the head matches: the scan stops at `s`
        simp only [findFirstMatch, hm]
        constructor
        · constructor
          · intro h
            have hn : n = s := by
              have := Except.ok.inj h
              exact (Option.some.inj this).symm
            subst hn
            exact ⟨Nat.le_refl _, by omega, hm, fun m hm1 hm2 => by omega⟩
          · rintro ⟨h1, h2, h3, h4⟩
            rcases Nat.eq_or_lt_of_le h1 with rfl | hlt
            · rfl
            · exact absurd hm (by have := h4 s (Nat.le_refl _) hlt; simp [this])
        · constructor
          · intro h
            simp at h
          · intro h
            exact absurd hm (by have := h s (Nat.le_refl _) (by omega); simp [this])

/-- Correctness of the descending search scan: over `(range c).reverse`,
i.e. `c-1, …, 0`, the first (largest) matching line number below the cursor
is returned. -/
theorem findFirstMatch_rev {st : FilterState} {g : Nat → String} (hsafe : RegexSafe st) :
    ∀ (c n : Nat),
      (findFirstMatch st g ((List.range c).reverse) = .ok (some n) ↔
        n < c ∧ check_match st (g n) = .ok true ∧
          ∀ m, n < m → m < c → check_match st (g m) ≠ .ok true) ∧
      (findFirstMatch st g ((List.range c).reverse) = .ok none ↔
        ∀ m, m < c → check_match st (g m) ≠ .ok true)
  | 0, n => by
    constructor
    · simp only [List.range_zero, List.reverse_nil, findFirstMatch]
      constructor
      · intro h
        simp at h
      · rintro ⟨h1, _⟩
        omega
    · simp only [List.range_zero, List.reverse_nil, findFirstMatch]
      constructor
      · intro _ m hm
        omega
      · intro _
        trivial
  | c + 1, n => by
    have IH := @findFirstMatch_rev st g hsafe c n
    rw [List.range_succ, List.reverse_append, List.reverse_cons, List.reverse_nil,
      List.nil_append, List.singleton_append]
    rcases hm : check_match st (g c) with e | b
    · exact absurd hm (check_match_not_error hsafe (g c) e)
    · cases b
      · -- line `c` does not match: recurse over `c-1, …, 0`
        have hne : check_match st (g c) ≠ .ok true := by
          rw [hm]
          simp
        simp only [findFirstMatch, hm]
        constructor
        · rw [IH.1]
          constructor
          · rintro ⟨h1, h2, h3⟩
            refine ⟨by omega, h2, fun m hm1 hm2 => ?_⟩
            rcases Nat.lt_succ_iff_lt_or_eq.mp hm2 with hlt | rfl
            · exact h3 m hm1 hlt
            · exact hne
          · rintro ⟨h1, h2, h3⟩
            have hnc : n ≠ c := fun h => hne (h ▸ h2)
            exact ⟨by omega, h2, fun m hm1 hm2 => h3 m hm1 (by omega)⟩
        · rw [IH.2]
          constructor
          · intro h m hm2
            rcases Nat.lt_succ_iff_lt_or_eq.mp hm2 with hlt | rfl
            · exact h m hlt
            · exact hne
          · intro h m hm2
            exact h m (by omega)
      · -- line `c` matches: the scan stops there
        simp only [findFirstMatch, hm]
        constructor
        · constructor
          · intro h
            have hn : n = c := by
              have := Except.ok.inj h
              exact (Option.some.inj this).symm
            subst hn
            exact ⟨by omega, hm, fun m hm1 hm2 => by omega⟩
          · rintro ⟨h1, h2, h3⟩
            rcases Nat.lt_succ_iff_lt_or_eq.mp h1 with hlt | rfl
            · exact absurd hm (by have := h3 c hlt (by omega); simp [this])
            · rfl
        · constructor
          · intro h
            simp at h
          · intro h
            exact absurd hm (by have := h c (by omega); simp [this])

/-! ### The claims -/

/-- C1 (refuted by the code): the claim says that with regex enabled and an
invalid pattern, `check_match` returns false for every line and `advance_search`
finds no match without raising.  In the code `check_match` has no
`try`/`except` (unlike `highlight_find`), so `re.match` raises `re.error` on
every non-empty line; the traversal of `advance_search` aborts with that
exception.  Here at the invalid pattern `"["` and the line `"x"`. -/
theorem c1_invalid_regex_raises :
    check_match ⟨"[", true, false⟩ "x" = .error () ∧
      advance_search (fun _ => "x") 2 ⟨"[", true, false⟩ 0 1 = .error () :=
  ⟨rfl, rfl⟩

/-- C2 counterexample: the claim says every non-empty proper prefix of an
observed token is stored.  Observing `"abc"` from the empty index leaves the
proper prefix `"ab"` unmapped (the loop runs over `range(1, len(word) - 1)`,
which stops one short of the longest proper prefix), while `"a"` is stored. -/
theorem c2_counterexample :
    observe emptyIndex "abc" ("ab" : String).data = none ∧
      observe emptyIndex "abc" ("a" : String).data = some ("abc" : String).data :=
  ⟨rfl, rfl⟩

/-- C2 amended: for each token of length > 1 of the observed text, the
observation loop stores `prefix.lower() → token` for every non-empty prefix
of length at most `len(token) - 2` (not every proper prefix); the existing
value is kept only when the *un-lowercased* prefix itself is a stored key
whose value is at least as long as the token; every other key is untouched.
(`observe` is, by definition, this per-token loop folded over the tokens of
the `SPLIT_REGEX` split of the text.) -/
theorem c2_amended_observation (idx : SearchIndex) (w : List Char) (off : Nat) (k : List Char)
    (h1 : 1 ≤ off) (h2 : off + 2 ≤ w.length)
    (hk : ∀ o, 1 ≤ o → o + 2 ≤ w.length → k ≠ lowerChars (w.take o)) :
    observeWord idx w (lowerChars (w.take off)) =
      (match idx (w.take off) with
       | none => some w
       | some v => if v.length < w.length then some w else idx (lowerChars (w.take off))) ∧
    observeWord idx w k = idx k :=
  ⟨observeWord_at idx h1 h2, observeWord_ne idx hk⟩

/-- Witness for the amended C2 at `word = "abc"`, `off = 1`, `k = "zz"`. -/
theorem c2_amended_witness :
    observeWord emptyIndex ("abc" : String).data
        (lowerChars (("abc" : String).data.take 1)) = some ("abc" : String).data ∧
      observeWord emptyIndex ("abc" : String).data ("zz" : String).data = none := by
  have h := c2_amended_observation emptyIndex ("abc" : String).data 1 ("zz" : String).data
    (by decide) (by decide)
    (fun o ho1 ho2 => by
      have hl : ("abc" : String).data.length = 3 := rfl
      have : o = 1 := by omega
      subst this
      decide)
  exact ⟨h.1, h.2⟩

/-- C3 (refuted by the code): the claim says a shorter incoming word never
overwrites a previously stored longer word for the same key.  Because the
membership test uses the raw (un-lowercased) prefix while the store uses the
lowercase key, observing `"ABCDE"` and then `"ABX"` replaces the value
`"ABCDE"` stored under `"a"` by the strictly shorter `"ABX"`. -/
theorem c3_longer_word_overwritten :
    observe emptyIndex "ABCDE" ("a" : String).data = some ("ABCDE" : String).data ∧
      observe (observe emptyIndex "ABCDE") "ABX" ("a" : String).data
        = some ("ABX" : String).data ∧
      ("ABX" : String).data.length < ("ABCDE" : String).data.length :=
  ⟨rfl, rfl, by decide⟩

/-- C4: for every index source, cursor and direction in `{+1, -1}` (and a
predicate whose pattern compiles whenever the regex variant is selected),
`advance_search` scans from `cursor + direction` toward the end of the index
(direction `+1`) or toward line 0 (direction `-1`), yields the first scanned
line number whose text matches `check_match`, and yields no pointer when the
traversal is exhausted without a match. -/
theorem c4_advance_search_first_match (g : Nat → String) (line_count : Nat)
    (st : FilterState) (cursor n : Nat) (hsafe : RegexSafe st) :
    (advance_search g line_count st cursor 1 = .ok (some n) ↔
        cursor < n ∧ n < line_count ∧ check_match st (g n) = .ok true ∧
          ∀ m, cursor < m → m < n → check_match st (g m) ≠ .ok true) ∧
    (advance_search g line_count st cursor 1 = .ok none ↔
        ∀ m, cursor < m → m < line_count → check_match st (g m) ≠ .ok true) ∧
    (advance_search g line_count st cursor (-1) = .ok (some n) ↔
        n < cursor ∧ check_match st (g n) = .ok true ∧
          ∀ m, n < m → m < cursor → check_match st (g m) ≠ .ok true) ∧
    (advance_search g line_count st cursor (-1) = .ok none ↔
        ∀ m, m < cursor → check_match st (g m) ≠ .ok true) := by
  have hasc := @findFirstMatch_range' st g hsafe (line_count - (cursor + 1)) (cursor + 1) n
  have hdesc := @findFirstMatch_rev st g hsafe cursor n
  have e1 : advance_search g line_count st cursor 1 =
      findFirstMatch st g (List.range' (cursor + 1) (line_count - (cursor + 1))) := by
    unfold advance_search scanRange
    rw [if_pos rfl]
  have e2 : advance_search g line_count st cursor (-1) =
      findFirstMatch st g ((List.range cursor).reverse) := by
    unfold advance_search scanRange
    rw [if_neg (by decide)]
  refine ⟨?_, ?_, ?_, ?_⟩
  · rw [e1, hasc.1]
    constructor
    · rintro ⟨a1, a2, a3, a4⟩
      exact ⟨by omega, by omega, a3, fun m hm1 hm2 => a4 m (by omega) hm2⟩
    · rintro ⟨a1, a2, a3, a4⟩
      exact ⟨by omega, by omega, a3, fun m hm1 hm2 => a4 m (by omega) hm2⟩
  · rw [e1, hasc.2]
    constructor
    · intro h m hm1 hm2
      exact h m (by omega) (by omega)
    · intro h m hm1 hm2
      exact h m (by omega) (by omega)
  · rw [e2, hdesc.1]
  · rw [e2, hdesc.2]

/-- Witness for C4: over the lines `["info", "ERROR: fail", "warn"]` with the
plain case-insensitive predicate `"ERROR"`, scanning forward from cursor 0
finds line 1. -/
theorem c4_witness :
    advance_search (fun i => ["info", "ERROR: fail", "warn"].getD i "") 3
        ⟨"ERROR", false, false⟩ 0 1 = .ok (some 1) := by
  have h := c4_advance_search_first_match (fun i => ["info", "ERROR: fail", "warn"].getD i "")
    3 ⟨"ERROR", false, false⟩ 0 1 (fun hregex => absurd hregex (by decide))
  exact h.1.mpr ⟨by omega, by omega, rfl, fun m hm1 hm2 => by omega⟩

/-- C5: `get_suggestion` splits the input like `observe` does, takes the
trailing token, and looks up its lowercase form: no suggestion when the
trailing token is empty or the lookup misses; on a hit the result is the
input with the trailing token replaced by the stored word and the non-token
part of the input preserved verbatim. -/
theorem c5_get_suggestion_correct (idx : SearchIndex) (value : String) (w : List Char)
    (hw : w = (splitTokens value.data).getLastD []) :
    (w = [] → get_suggestion idx value = none) ∧
    (idx (lowerChars w) = none → get_suggestion idx value = none) ∧
    (∀ hit, w ≠ [] → idx (lowerChars w) = some hit →
      ∃ pre, value.data = pre ++ w ∧
        get_suggestion idx value = some (String.mk (pre ++ hit))) := by
  refine ⟨?_, ?_, ?_⟩
  · intro h
    simp only [get_suggestion]
    rw [← hw, if_pos h]
  · intro h
    simp only [get_suggestion]
    rw [← hw]
    by_cases hww : w = []
    · rw [if_pos hww]
    · rw [if_neg hww, h]
  · intro hit hww hhit
    obtain ⟨pre, hpre⟩ := splitTokens_getLastD_suffix value.data
    rw [← hw] at hpre
    have hstart : value.data.take (value.data.length - w.length) = pre := by
      rw [← hpre, List.length_append, Nat.add_sub_cancel]
      exact List.take_left pre _
    refine ⟨pre, hpre.symm, ?_⟩
    simp only [get_suggestion]
    rw [← hw, if_neg hww, hhit]
    show some (String.mk (value.data.take (value.data.length - w.length) ++ hit))
      = some (String.mk (pre ++ hit))
    rw [hstart]

/-- Witness for C5: an empty trailing token, a lookup miss, and a hit whose
non-token input part `"path/"` is preserved verbatim. -/
theorem c5_witness :
    get_suggestion emptyIndex "a/" = none ∧
      get_suggestion emptyIndex "xy" = none ∧
      get_suggestion (observe emptyIndex "foobar9") "path/foo" = some "path/foobar9" := by
  refine ⟨?_, ?_, ?_⟩
  · exact (c5_get_suggestion_correct emptyIndex "a/" [] rfl).1 rfl
  · exact (c5_get_suggestion_correct emptyIndex "xy" ("xy" : String).data rfl).2.1 rfl
  · obtain ⟨pre, hpre, hres⟩ := (c5_get_suggestion_correct (observe emptyIndex "foobar9")
      "path/foo" ("foo" : String).data rfl).2.2 ("foobar9" : String).data (by decide) rfl
    have hlen : pre.length = 5 := by
      have h := congrArg List.length hpre
      rw [List.length_append] at h
      have h8 : ("path/foo" : String).data.length = 8 := rfl
      have h3 : ("foo" : String).data.length = 3 := rfl
      omega
    have hpre5 : ("path/foo" : String).data.take 5 = pre := by
      rw [hpre]
      exact List.take_left' hlen
    have hp : pre = ("path/" : String).data := by
      rw [← hpre5]
      rfl
    rw [hp] at hres
    exact hres

/-- C6: for every non-empty line and every regex predicate whose pattern
compiles, `check_match` has `re.match` (anchored) semantics: it is true
exactly when some prefix of the (case-folded) line is in the pattern's
language; consequently a line that contains the pattern only away from the
start does not match. -/
theorem c6_regex_match_is_anchored (st : FilterState) (line : String)
    (r : RegularExpression Char) (hre : st.regex = true)
    (hc : compilePattern st.case_sensitive st.find.data = some r) (hne : line ≠ "") :
    (check_match st line = .ok true ↔
      ∃ k, k ≤ line.data.length ∧
        (foldCase st.case_sensitive line.data).take k ∈ r.matches') ∧
    ((∀ k, k ≤ line.data.length →
        (foldCase st.case_sensitive line.data).take k ∉ r.matches') →
      check_match st line = .ok false) := by
  have hcm : check_match st line
      = .ok (reMatchAt r (foldCase st.case_sensitive line.data)) := by
    unfold check_match
    rw [if_neg hne, hre]
    simp only [if_true]
    rw [hc]
  constructor
  · rw [hcm]
    constructor
    · intro h
      have hb : reMatchAt r (foldCase st.case_sensitive line.data) = true := Except.ok.inj h
      obtain ⟨k, hk, hmem⟩ := (reMatchAt_iff r _).mp hb
      rw [foldCase_length] at hk
      exact ⟨k, hk, hmem⟩
    · rintro ⟨k, hk, hmem⟩
      have hb : reMatchAt r (foldCase st.case_sensitive line.data) = true :=
        (reMatchAt_iff r _).mpr ⟨k, by rw [foldCase_length]; exact hk, hmem⟩
      rw [hb]
  · intro h
    rw [hcm]
    cases hb : reMatchAt r (foldCase st.case_sensitive line.data)
    · rfl
    · obtain ⟨k, hk, hmem⟩ := (reMatchAt_iff r _).mp hb
      rw [foldCase_length] at hk
      exact absurd hmem (h k hk)

/-- Witness for C6: the compiled pattern `"b"` against the line `"ab"`, which
contains `"b"` only at position 1: the anchored `check_match` returns false. -/
theorem c6_witness :
    (check_match ⟨"b", true, true⟩ "ab" = .ok true ↔
      ∃ k, k ≤ ("ab" : String).data.length ∧
        (foldCase true ("ab" : String).data).take k ∈
          (RegularExpression.comp (RegularExpression.char 'b')
            RegularExpression.epsilon).matches') ∧
    check_match ⟨"b", true, true⟩ "ab" = .ok false :=
  ⟨(c6_regex_match_is_anchored ⟨"b", true, true⟩ "ab"
      (RegularExpression.comp (RegularExpression.char 'b') RegularExpression.epsilon)
      rfl rfl (by decide)).1,
    rfl⟩

/-- C7: the empty find string matches every line, for both predicate variants
(plain and regex) and either case sensitivity. -/
theorem c7_empty_find_matches_everything (st : FilterState) (line : String)
    (h : st.find = "") : check_match st line = .ok true := by
  unfold check_match
  split
  · rfl
  · split
    · rw [h]
      rw [compilePattern_nil st.case_sensitive]
      show Except.ok (reMatchAt RegularExpression.epsilon
        (foldCase st.case_sensitive line.data)) = Except.ok true
      rw [reMatchAt_epsilon]
    · split
      · rw [h]
        show Except.ok (pyContains [] line.data) = Except.ok true
        rw [pyContains_nil]
      · rw [h]
        show Except.ok (pyContains [] (lowerChars line.data)) = Except.ok true
        rw [pyContains_nil]

/-- Witness for C7 at the regex variant and the line `"hello"`. -/
theorem c7_witness : check_match ⟨"", true, false⟩ "hello" = .ok true :=
  c7_empty_find_matches_everything ⟨"", true, false⟩ "hello" rfl

/-- C8: observing `"error_code_42"` from the empty index makes
`suggest("err")` return `"error_code_42"`, and a later observation of
`"err2"` does not replace the value stored under `"err"`. -/
theorem c8_error_code_scenario :
    get_suggestion (observe emptyIndex "error_code_42") "err" = some "error_code_42" ∧
      get_suggestion (observe (observe emptyIndex "error_code_42") "err2") "err"
        = some "error_code_42" :=
  ⟨rfl, rfl⟩

/-- C9: `check_match` applied to the empty line returns true for every
predicate configuration (plain or regex, either case sensitivity, any find
string — including an invalid regex pattern). -/
theorem c9_empty_line_always_matches (st : FilterState) : check_match st "" = .ok true := by
  unfold check_match
  rw [if_pos rfl]

/-- C10: a row index at or past the line count renders as a blank strip of
the widget's width with the suggestion index untouched, and rendering never
performs an out-of-range line access (it never errors when the index source
is total on `[0, line_count)`). -/
theorem c10_render_line_blank_past_end (get_text : Nat → Option String)
    (line_count scroll_y width : Nat) (pointer_line : Option Nat)
    (cache : Nat × Bool → Option Unit) (idx : SearchIndex) (y : Nat)
    (h : line_count ≤ y) :
    render_line get_text line_count scroll_y width pointer_line cache idx y
      = .ok (.blank width, idx) ∧
    ((∀ i, i < line_count → (get_text i).isSome) → ∀ y',
      ∃ out, render_line get_text line_count scroll_y width pointer_line cache idx y'
        = .ok out) := by
  constructor
  · simp only [render_line]
    rw [if_pos (by omega)]
  · intro htot y'
    rcases hX : render_line get_text line_count scroll_y width pointer_line cache idx y'
      with e | out
    · exfalso
      simp only [render_line] at hX
      by_cases hy : line_count ≤ y' + scroll_y
      · rw [if_pos hy] at hX
        exact Except.noConfusion hX
      · rw [if_neg hy] at hX
        rcases hcache : cache (y' + scroll_y, decide (pointer_line = some (y' + scroll_y)))
          with _ | u <;> rw [hcache] at hX
        · rcases hg : get_text (y' + scroll_y) with _ | text <;> rw [hg] at hX
          · have := htot (y' + scroll_y) (by omega)
            rw [hg] at this
            exact Bool.noConfusion this
          · exact Except.noConfusion hX
        · exact Except.noConfusion hX
    · exact ⟨out, rfl⟩

/-- Witness for C10: with two lines, row 5 renders blank; the renderer is
total at every row. -/
theorem c10_witness :
    render_line (fun i => if i < 2 then some "log line" else none) 2 0 80 none
        (fun _ => none) emptyIndex 5 = .ok (.blank 80, emptyIndex) ∧
      ∃ out, render_line (fun i => if i < 2 then some "log line" else none) 2 0 80 none
        (fun _ => none) emptyIndex 1 = .ok out := by
  have h := c10_render_line_blank_past_end (fun i => if i < 2 then some "log line" else none)
    2 0 80 none (fun _ => none) emptyIndex 5 (by omega)
  exact ⟨h.1, h.2 (fun i hi => by simp [hi]) 1⟩


end Tailless
